import Mathlib

/-!
Shallow embedding of the latticegpm repository (files latticegpm/utils.py and
latticegpm/gpm.py), together with theorems settling the specification claims.

Conventions: Python strings are lists of characters (or Lean String where the
code treats them opaquely), Python floats are real numbers, functions that can
raise are modelled with Except, and external collaborators (the latticeproteins
fold oracle, the fold_energy scoring function, the random sequence generator)
are opaque parameters.
-/

namespace LatticeGPM

/-- Embedding of latticeproteins.sequences.HammingDistance (external helper
used by utils.py): the number of sites at which two equal-length sequences
differ. -/
def hammingDistance (s t : List Char) : Nat :=
  (List.zip s t).countP (fun p => p.1 != p.2)

/-- The two errors generate_binary_space can raise.  The spec names them
ValidationError (an IndexError in the source, for a length mismatch) and
DivergenceError (a bare Exception in the source, for sequences that do not
differ at every site). -/
inductive SpaceError where
  | validationError
  | divergenceError
deriving DecidableEq

/-- Embedding of the itertools.product('01', repeat=n) call in
generate_binary_space: all length-n strings over the characters 0 and 1, the
first position varying slowest, exactly the order the Python iterator emits. -/
def binaryStrings : Nat → List (List Char)
  | 0 => [[]]
  | n + 1 =>
    (binaryStrings n).map (fun s => '0' :: s) ++ (binaryStrings n).map (fun s => '1' :: s)

/-- Boolean lexicographic comparison of character lists: the order by which
Python's sorted builtin arranges the binary strings in generate_binary_space. -/
def lexLe : List Char → List Char → Bool
  | [], _ => true
  | _ :: _, [] => false
  | a :: as, b :: bs => if a < b then true else if b < a then false else lexLe as bs

/-- The inner loop of generate_binary_space: from one binary string b, the
sequence whose site i carries the wildtype character when b has character 0
there and the mutant character otherwise. -/
def seqFromBits (wildtype mutant b : List Char) : List Char :=
  List.zipWith (fun c p => if c = '0' then p.1 else p.2) b (wildtype.zip mutant)

/-- Embedding of utils.generate_binary_space: raise if the two sequences have
different lengths, raise if they do not differ at every site, then sort the
binary strings and build one sequence per binary string. -/
def generate_binary_space (wildtype mutant : List Char) :
    Except SpaceError (List (List Char)) :=
  if wildtype.length ≠ mutant.length then .error .validationError
  else if hammingDistance wildtype mutant ≠ wildtype.length then .error .divergenceError
  else
    .ok (((binaryStrings wildtype.length).mergeSort lexLe).map (seqFromBits wildtype mutant))

/-- The i-th binary string of length n in ascending lexicographic order:
character j is 1 exactly when bit (n - 1 - j) of i is set. -/
def bitsOf (n i : Nat) : List Char :=
  (List.range n).map (fun j => if Nat.testBit i (n - 1 - j) then '1' else '0')

theorem length_binaryStrings (n : Nat) : (binaryStrings n).length = 2 ^ n := by
  induction n with
  | zero => rfl
  | succ n ih =>
    simp [binaryStrings, ih, Nat.pow_succ, Nat.mul_two]

theorem bitsOf_lt (n i : Nat) (h : i < 2 ^ n) : bitsOf (n + 1) i = '0' :: bitsOf n i := by
  unfold bitsOf
  rw [List.range_succ_eq_map, List.map_cons, List.map_map]
  refine congrArg₂ _ ?_ (List.map_congr_left ?_)
  · simp [Nat.testBit_lt_two_pow h]
  · intro j _
    have hj : n - (j + 1) = n - 1 - j := by omega
    simp [Function.comp, hj]

theorem bitsOf_ge (n i : Nat) (h : i < 2 ^ n) :
    bitsOf (n + 1) (2 ^ n + i) = '1' :: bitsOf n i := by
  unfold bitsOf
  rw [List.range_succ_eq_map, List.map_cons, List.map_map]
  refine congrArg₂ _ ?_ (List.map_congr_left ?_)
  · simp [Nat.testBit_two_pow_add_eq, Nat.testBit_lt_two_pow h]
  · intro j hj
    have hj' : n - (j + 1) = n - 1 - j := by omega
    have hb : Nat.testBit (2 ^ n + i) (n - 1 - j) = Nat.testBit i (n - 1 - j) :=
      Nat.testBit_two_pow_add_gt (by simp at hj; omega) i
    simp [Function.comp, hj', hb]

theorem binaryStrings_eq_map (n : Nat) :
    binaryStrings n = (List.range (2 ^ n)).map (bitsOf n) := by
  induction n with
  | zero => rfl
  | succ n ih =>
    have hsplit : List.range (2 ^ (n + 1)) =
        List.range (2 ^ n) ++ (List.range (2 ^ n)).map (2 ^ n + ·) := by
      rw [← List.range_add]
      norm_num [Nat.pow_succ, Nat.mul_two]
    rw [hsplit, List.map_append, List.map_map]
    show binaryStrings (n + 1) = _
    rw [binaryStrings, ih, List.map_map, List.map_map]
    refine congrArg₂ _ (List.map_congr_left ?_) (List.map_congr_left ?_)
    · intro i hi
      simp only [Function.comp]
      exact (bitsOf_lt n i (List.mem_range.mp hi)).symm
    · intro i hi
      simp only [Function.comp]
      exact (bitsOf_ge n i (List.mem_range.mp hi)).symm

theorem length_bitsOf (n i : Nat) : (bitsOf n i).length = n := by
  simp [bitsOf]

theorem lexLe_cons_same (c : Char) (a b : List Char) :
    lexLe (c :: a) (c :: b) = lexLe a b := by
  simp [lexLe]

theorem lexLe_cons_lt {c d : Char} (h : c < d) (a b : List Char) :
    lexLe (c :: a) (d :: b) = true := by
  simp [lexLe, h]

theorem pairwise_binaryStrings (n : Nat) :
    (binaryStrings n).Pairwise (fun a b => lexLe a b = true) := by
  induction n with
  | zero => simp [binaryStrings]
  | succ n ih =>
    rw [binaryStrings]
    refine List.pairwise_append.mpr ⟨?_, ?_, ?_⟩
    · exact (List.pairwise_map).mpr (ih.imp (fun h => by
        rw [lexLe_cons_same]; exact h))
    · exact (List.pairwise_map).mpr (ih.imp (fun h => by
        rw [lexLe_cons_same]; exact h))
    · intro x hx y hy
      obtain ⟨a, _, rfl⟩ := List.mem_map.mp hx
      obtain ⟨b, _, rfl⟩ := List.mem_map.mp hy
      exact lexLe_cons_lt (by decide) a b

theorem mergeSort_binaryStrings (n : Nat) :
    (binaryStrings n).mergeSort lexLe = binaryStrings n :=
  List.mergeSort_of_sorted (pairwise_binaryStrings n)

theorem generate_binary_space_ok (wildtype mutant : List Char)
    (hlen : wildtype.length = mutant.length)
    (hham : hammingDistance wildtype mutant = wildtype.length) :
    generate_binary_space wildtype mutant =
      .ok ((List.range (2 ^ wildtype.length)).map (fun i =>
        seqFromBits wildtype mutant (bitsOf wildtype.length i))) := by
  unfold generate_binary_space
  rw [if_neg (by simp [hlen]), if_neg (by simp [hham]), mergeSort_binaryStrings,
    binaryStrings_eq_map, List.map_map]
  rfl

theorem length_seqFromBits (wildtype mutant : List Char)
    (hlen : wildtype.length = mutant.length) (i : Nat) :
    (seqFromBits wildtype mutant (bitsOf wildtype.length i)).length = wildtype.length := by
  simp [seqFromBits, length_bitsOf, hlen]

theorem seqFromBits_getElem (wildtype mutant : List Char)
    (hlen : wildtype.length = mutant.length) (i j : Nat) (hj : j < wildtype.length) :
    (seqFromBits wildtype mutant (bitsOf wildtype.length i))[j]? =
      if Nat.testBit i (wildtype.length - 1 - j) then mutant[j]? else wildtype[j]? := by
  have hjm : j < mutant.length := hlen ▸ hj
  have hw : wildtype[j]? = some (wildtype.get ⟨j, hj⟩) := List.getElem?_eq_getElem hj
  have hm : mutant[j]? = some (mutant.get ⟨j, hjm⟩) := List.getElem?_eq_getElem hjm
  have hzip : (wildtype.zip mutant)[j]? =
      some (wildtype.get ⟨j, hj⟩, mutant.get ⟨j, hjm⟩) :=
    List.getElem?_zip_eq_some.mpr ⟨hw, hm⟩
  have hbit : (bitsOf wildtype.length i)[j]? =
      some (if Nat.testBit i (wildtype.length - 1 - j) then '1' else '0') := by
    simp [bitsOf, List.getElem?_range hj]
  rw [seqFromBits, List.getElem?_zipWith, hbit, hzip]
  by_cases h : Nat.testBit i (wildtype.length - 1 - j)
  · simp [h, hm]
  · simp [h, hw]

theorem site_ne_of_hamming (wildtype mutant : List Char)
    (hlen : wildtype.length = mutant.length)
    (hham : hammingDistance wildtype mutant = wildtype.length)
    (j : Nat) (hj : j < wildtype.length) :
    wildtype.get ⟨j, hj⟩ ≠ mutant.get ⟨j, hlen ▸ hj⟩ := by
  have hlz : (wildtype.zip mutant).length = wildtype.length := by
    simp [List.length_zip, hlen]
  have hall : ∀ p ∈ wildtype.zip mutant, (p.1 != p.2) = true := by
    apply List.countP_eq_length.mp
    rw [hlz]
    exact hham
  have hmem : (wildtype.get ⟨j, hj⟩, mutant.get ⟨j, hlen ▸ hj⟩) ∈ wildtype.zip mutant := by
    have hzip : (wildtype.zip mutant)[j]? =
        some (wildtype.get ⟨j, hj⟩, mutant.get ⟨j, hlen ▸ hj⟩) :=
      List.getElem?_zip_eq_some.mpr
        ⟨List.getElem?_eq_getElem hj, List.getElem?_eq_getElem (hlen ▸ hj)⟩
    obtain ⟨h, he⟩ := List.getElem?_eq_some.mp hzip
    exact he ▸ List.getElem_mem h
  simpa using hall _ hmem


theorem seqFromBits_inj (wildtype mutant : List Char)
    (hlen : wildtype.length = mutant.length)
    (hham : hammingDistance wildtype mutant = wildtype.length)
    (i i' : Nat) (hi : i < 2 ^ wildtype.length) (hi' : i' < 2 ^ wildtype.length)
    (heq : seqFromBits wildtype mutant (bitsOf wildtype.length i) =
      seqFromBits wildtype mutant (bitsOf wildtype.length i')) : i = i' := by
  apply Nat.eq_of_testBit_eq
  intro k
  by_cases hk : k < wildtype.length
  · have hjlt : wildtype.length - 1 - k < wildtype.length := by omega
    have hidx : wildtype.length - 1 - (wildtype.length - 1 - k) = k := by omega
    have h1 := seqFromBits_getElem wildtype mutant hlen i (wildtype.length - 1 - k) hjlt
    have h2 := seqFromBits_getElem wildtype mutant hlen i' (wildtype.length - 1 - k) hjlt
    rw [heq, h2, hidx] at h1
    have hm : mutant[wildtype.length - 1 - k]? =
        some (mutant.get ⟨wildtype.length - 1 - k, hlen ▸ hjlt⟩) :=
      List.getElem?_eq_getElem (hlen ▸ hjlt)
    have hw : wildtype[wildtype.length - 1 - k]? =
        some (wildtype.get ⟨wildtype.length - 1 - k, hjlt⟩) :=
      List.getElem?_eq_getElem hjlt
    have hne := site_ne_of_hamming wildtype mutant hlen hham _ hjlt
    cases hb : Nat.testBit i k <;> cases hb' : Nat.testBit i' k
    · rfl
    · rw [if_pos (by rw [hb']), if_neg (by rw [hb]; exact Bool.false_ne_true), hm, hw] at h1
      exact absurd (Option.some.inj h1).symm hne
    · rw [if_neg (by rw [hb']; exact Bool.false_ne_true), if_pos (by rw [hb]), hm, hw] at h1
      exact absurd (Option.some.inj h1) hne
    · rfl
  · have hle : 2 ^ wildtype.length ≤ 2 ^ k := Nat.pow_le_pow_right (by norm_num) (by omega)
    rw [Nat.testBit_lt_two_pow (lt_of_lt_of_le hi hle),
      Nat.testBit_lt_two_pow (lt_of_lt_of_le hi' hle)]

/-- C1: for every wildtype and mutant pair of equal length L that differ at
every site, generate_binary_space returns exactly 2 to the L sequences, with
no duplicates, each of length L, indexed so that the i-th sequence corresponds
to the i-th L-bit binary string in ascending lexicographic order: its
character j is the mutant character j exactly when character j of that binary
string is 1, which is bit (L - 1 - j) of i, and the wildtype character j
otherwise. -/
theorem binary_space_enumeration (wildtype mutant : List Char)
    (hlen : wildtype.length = mutant.length)
    (hham : hammingDistance wildtype mutant = wildtype.length) :
    ∃ ss, generate_binary_space wildtype mutant = .ok ss ∧
      ss.length = 2 ^ wildtype.length ∧
      ss.Nodup ∧
      (∀ s ∈ ss, s.length = wildtype.length) ∧
      (∀ i j, i < 2 ^ wildtype.length → j < wildtype.length →
        ∃ s, ss[i]? = some s ∧
          s[j]? = if Nat.testBit i (wildtype.length - 1 - j)
            then mutant[j]? else wildtype[j]?) := by
  refine ⟨_, generate_binary_space_ok wildtype mutant hlen hham, ?_, ?_, ?_, ?_⟩
  · simp
  · exact (List.nodup_range _).map_on (fun x hx y hy h =>
      seqFromBits_inj wildtype mutant hlen hham x y
        (List.mem_range.mp hx) (List.mem_range.mp hy) h)
  · intro s hs
    obtain ⟨i, _, rfl⟩ := List.mem_map.mp hs
    exact length_seqFromBits wildtype mutant hlen i
  · intro i j hi hj
    refine ⟨seqFromBits wildtype mutant (bitsOf wildtype.length i), ?_,
      seqFromBits_getElem wildtype mutant hlen i j hj⟩
    rw [List.getElem?_map, List.getElem?_range hi, Option.map_some']

/-- Witness for C1 at the concrete pair AB and CD of length 2. -/
theorem binary_space_enumeration_witness :
    (['A', 'B'] : List Char).length = (['C', 'D'] : List Char).length ∧
    hammingDistance ['A', 'B'] ['C', 'D'] = (['A', 'B'] : List Char).length ∧
    (∃ ss, generate_binary_space ['A', 'B'] ['C', 'D'] = .ok ss ∧
      ss.length = 2 ^ (['A', 'B'] : List Char).length ∧
      ss.Nodup ∧
      (∀ s ∈ ss, s.length = (['A', 'B'] : List Char).length) ∧
      (∀ i j, i < 2 ^ (['A', 'B'] : List Char).length →
        j < (['A', 'B'] : List Char).length →
        ∃ s, ss[i]? = some s ∧
          s[j]? = if Nat.testBit i ((['A', 'B'] : List Char).length - 1 - j)
            then (['C', 'D'] : List Char)[j]? else (['A', 'B'] : List Char)[j]?)) :=
  ⟨by decide, by decide,
    binary_space_enumeration ['A', 'B'] ['C', 'D'] (by decide) (by decide)⟩

/-- C9: generate_binary_space raises the length-mismatch error when the two
sequences have different lengths, raises the divergence error when they have
equal length but do not differ at every site, and raises neither error on a
valid pair. -/
theorem binary_space_errors (wildtype mutant : List Char) :
    (wildtype.length ≠ mutant.length →
      generate_binary_space wildtype mutant = .error .validationError) ∧
    (wildtype.length = mutant.length → hammingDistance wildtype mutant ≠ wildtype.length →
      generate_binary_space wildtype mutant = .error .divergenceError) ∧
    (wildtype.length = mutant.length → hammingDistance wildtype mutant = wildtype.length →
      ∃ ss, generate_binary_space wildtype mutant = .ok ss) := by
  refine ⟨fun h => ?_, fun h1 h2 => ?_, fun h1 h2 => ?_⟩
  · rw [generate_binary_space, if_pos h]
  · rw [generate_binary_space, if_neg (by simp [h1]), if_pos h2]
  · exact ⟨_, generate_binary_space_ok wildtype mutant h1 h2⟩

/-- Witness for C9 at the spec's concrete inputs: AB with ABC (length
mismatch), AB with AB (not fully divergent), AB with CD (valid). -/
theorem binary_space_errors_witness :
    generate_binary_space ['A', 'B'] ['A', 'B', 'C'] = .error .validationError ∧
    generate_binary_space ['A', 'B'] ['A', 'B'] = .error .divergenceError ∧
    (∃ ss, generate_binary_space ['A', 'B'] ['C', 'D'] = .ok ss) :=
  ⟨(binary_space_errors ['A', 'B'] ['A', 'B', 'C']).1 (by decide),
    (binary_space_errors ['A', 'B'] ['A', 'B']).2.1 (by decide) (by decide),
    (binary_space_errors ['A', 'B'] ['C', 'D']).2.2 (by decide) (by decide)⟩

/-- The error both landscape searches raise on reaching max_iter; the spec
names it SearchExhaustedError (a bare Exception in the source). -/
inductive SearchError where
  | searchExhausted
deriving DecidableEq

/-- One iteration body shared verbatim by search_conformation_space and
search_fitness_landscape: when the drawn sequence passes the score test, store
it if no candidate is held yet, or append it if its Hamming distance from the
first stored candidate equals the full sequence length.  The source compares
that distance with the Python keyword is, which for interned CPython integers
is equality, and is modelled as equality. -/
def searchStep (accept : List Char → Bool) (length : Nat)
    (seqs : List (List Char)) (s : List Char) : List (List Char) :=
  if accept s then
    match seqs with
    | [] => [s]
    | s0 :: _ => if hammingDistance s0 s = length then seqs ++ [s] else seqs
  else seqs

/-- The while loop of both searches: draw, score, maybe accept, increment
counter, until two sequences are collected or counter reaches maxIter.  The
first argument is the remaining permitted iterations maxIter - counter, making
the recursion structural; the loop guard is checked exactly as in the
source. -/
def searchLoop (accept : List Char → Bool) (length : Nat) (draws : Nat → List Char)
    (maxIter : Nat) : Nat → Nat → List (List Char) → Nat × List (List Char)
  | 0, counter, seqs => (counter, seqs)
  | fuel + 1, counter, seqs =>
    if seqs.length < 2 ∧ counter < maxIter then
      searchLoop accept length draws maxIter fuel (counter + 1)
        (searchStep accept length seqs (draws counter))
    else (counter, seqs)

/-- Embedding of utils.search_conformation_space.  The external Conformations
oracle is split into its observable pieces: length is Conformations.Length()
and energy s t is FoldSequence(s, t)[0]; draws is the stream of RandomSequence
results, one per iteration; scores are rationals standing for the oracle's
floats.  After the loop, counter == max_iter raises, otherwise the collected
list is returned. -/
def search_conformation_space (length : Nat) (energy : List Char → ℚ → ℚ)
    (temperature threshold : ℚ) (draws : Nat → List Char) (maxIter : Nat) :
    Except SearchError (List (List Char)) :=
  let r := searchLoop (fun s => decide (energy s temperature < threshold))
    length draws maxIter maxIter 0 []
  if r.1 = maxIter then .error .searchExhausted else .ok r.2

/-- Embedding of utils.search_fitness_landscape: identical loop, but a drawn
sequence is accepted when its fitness is strictly above the threshold. -/
def search_fitness_landscape (length : Nat) (fitness : List Char → ℚ)
    (threshold : ℚ) (draws : Nat → List Char) (maxIter : Nat) :
    Except SearchError (List (List Char)) :=
  let r := searchLoop (fun s => decide (threshold < fitness s))
    length draws maxIter maxIter 0 []
  if r.1 = maxIter then .error .searchExhausted else .ok r.2

/-- The candidate list after the first k draws were processed, with no early
stop: the reference by which the loop's stopping and error behaviour is
stated. -/
def seqsAfter (accept : List Char → Bool) (length : Nat) (draws : Nat → List Char)
    (k : Nat) : List (List Char) :=
  (List.range k).foldl (fun seqs j => searchStep accept length seqs (draws j)) []

theorem seqsAfter_succ (accept : List Char → Bool) (length : Nat)
    (draws : Nat → List Char) (k : Nat) :
    seqsAfter accept length draws (k + 1) =
      searchStep accept length (seqsAfter accept length draws k) (draws k) := by
  simp [seqsAfter, List.range_succ]

theorem searchLoop_spec (accept : List Char → Bool) (length : Nat)
    (draws : Nat → List Char) (maxIter : Nat) :
    ∀ fuel k, k + fuel = maxIter →
      ∃ c, k ≤ c ∧ c ≤ maxIter ∧
        searchLoop accept length draws maxIter fuel k
            (seqsAfter accept length draws k) =
          (c, seqsAfter accept length draws c) ∧
        (∀ j, k ≤ j → j < c → (seqsAfter accept length draws j).length < 2) ∧
        (c < maxIter → 2 ≤ (seqsAfter accept length draws c).length) := by
  intro fuel
  induction fuel with
  | zero =>
    intro k hk
    exact ⟨k, le_refl k, by omega, rfl, fun j h1 h2 => absurd h2 (by omega),
      fun h => absurd h (by omega)⟩
  | succ fuel ih =>
    intro k hk
    by_cases hcond : (seqsAfter accept length draws k).length < 2 ∧ k < maxIter
    · rw [searchLoop, if_pos hcond, ← seqsAfter_succ]
      obtain ⟨c, h1, h2, h3, h4, h5⟩ := ih (k + 1) (by omega)
      refine ⟨c, by omega, h2, h3, fun j hj1 hj2 => ?_, h5⟩
      rcases Nat.eq_or_lt_of_le hj1 with hj | hj
      · exact hj ▸ hcond.1
      · exact h4 j hj hj2
    · rw [searchLoop, if_neg hcond]
      refine ⟨k, le_refl k, by omega, rfl, fun j h1 h2 => absurd h2 (by omega),
        fun hlt => ?_⟩
      rcases Nat.lt_or_ge (seqsAfter accept length draws k).length 2 with h | h
      · exact absurd ⟨h, hlt⟩ hcond
      · exact h

theorem searchLoop_counter_eq_iff (accept : List Char → Bool) (length : Nat)
    (draws : Nat → List Char) (maxIter : Nat) :
    (searchLoop accept length draws maxIter maxIter 0 []).1 = maxIter ↔
      ¬ ∃ k, k < maxIter ∧ 2 ≤ (seqsAfter accept length draws k).length := by
  obtain ⟨c, _, h2, h3, h4, h5⟩ :=
    searchLoop_spec accept length draws maxIter maxIter 0 (by omega)
  have h0 : seqsAfter accept length draws 0 = [] := rfl
  rw [h0] at h3
  rw [h3]
  constructor
  · intro hc ⟨k, hk, hlen⟩
    exact absurd hlen (by simpa using h4 k (Nat.zero_le k) (by omega))
  · intro hne
    by_contra hc
    exact hne ⟨c, by omega, h5 (by omega)⟩

/-- The states the candidate list can be in while a search loop runs: empty,
one accepted candidate, or two accepted candidates at full Hamming
distance. -/
def searchInv (accept : List Char → Bool) (length : Nat) : List (List Char) → Prop
  | [] => True
  | [s1] => accept s1 = true
  | [s1, s2] => accept s1 = true ∧ accept s2 = true ∧ hammingDistance s1 s2 = length
  | _ => False

theorem searchStep_inv (accept : List Char → Bool) (length : Nat)
    (seqs : List (List Char)) (s : List Char) (hinv : searchInv accept length seqs)
    (hlen : seqs.length < 2) :
    searchInv accept length (searchStep accept length seqs s) := by
  match seqs with
  | [] =>
    by_cases h : accept s <;> simp [searchStep, searchInv, h]
  | [s1] =>
    by_cases h : accept s
    · by_cases hh : hammingDistance s1 s = length <;>
        simp [searchStep, searchInv, h, hh] <;> exact hinv
    · simpa [searchStep, searchInv, h] using hinv
  | s1 :: s2 :: rest => simp at hlen; omega

theorem seqsAfter_inv (accept : List Char → Bool) (length : Nat)
    (draws : Nat → List Char) :
    ∀ k, (∀ j, j < k → (seqsAfter accept length draws j).length < 2) →
      searchInv accept length (seqsAfter accept length draws k) := by
  intro k
  induction k with
  | zero => intro _; trivial
  | succ k ih =>
    intro h
    rw [seqsAfter_succ]
    exact searchStep_inv accept length _ _
      (ih (fun j hj => h j (by omega))) (h k (by omega))

theorem searchLoop_result_pair (accept : List Char → Bool) (length : Nat)
    (draws : Nat → List Char) (maxIter : Nat)
    (hne : (searchLoop accept length draws maxIter maxIter 0 []).1 ≠ maxIter) :
    ∃ s1 s2, (searchLoop accept length draws maxIter maxIter 0 []).2 = [s1, s2] ∧
      accept s1 = true ∧ accept s2 = true ∧ hammingDistance s1 s2 = length := by
  obtain ⟨c, _, h2, h3, h4, h5⟩ :=
    searchLoop_spec accept length draws maxIter maxIter 0 (by omega)
  rw [show seqsAfter accept length draws 0 = [] from rfl] at h3
  rw [h3] at hne ⊢
  have hc : c < maxIter := by
    rcases Nat.lt_or_ge c maxIter with h | h
    · exact h
    · exact absurd (by omega : c = maxIter) hne
  have hlen2 := h5 hc
  have hinv := seqsAfter_inv accept length draws c (fun j hj => h4 j (Nat.zero_le j) hj)
  match hsc : seqsAfter accept length draws c with
  | [] => rw [hsc] at hlen2; simp at hlen2
  | [s1] => rw [hsc] at hlen2; simp at hlen2
  | [s1, s2] =>
    rw [hsc] at hinv
    exact ⟨s1, s2, rfl, hinv⟩
  | s1 :: s2 :: s3 :: rest =>
    rw [hsc] at hinv
    exact hinv.elim

theorem search_result_error_iff (maxIter : Nat) (r : Nat × List (List Char)) :
    ((if r.1 = maxIter then Except.error SearchError.searchExhausted
        else Except.ok r.2) = .error .searchExhausted) ↔ r.1 = maxIter := by
  by_cases h : r.1 = maxIter <;> simp [h]

/-- C4 (amended): each landscape search stops as soon as two accepted
fully-divergent candidates exist or after maxIter draws, and raises the
search-exhausted error exactly when no qualifying pair was complete strictly
before the counter reached maxIter.  The original claim is amended in one
point: when the pair is completed on the final permitted draw, the counter
still equals maxIter afterwards, so the source raises the error instead of
returning the pair (see the counterexample). -/
theorem search_budget_behavior (length : Nat) (energy : List Char → ℚ → ℚ)
    (fitness : List Char → ℚ) (temperature threshold : ℚ)
    (draws : Nat → List Char) (maxIter : Nat) :
    (search_conformation_space length energy temperature threshold draws maxIter
        = .error .searchExhausted ↔
      ¬ ∃ k, k < maxIter ∧ 2 ≤ (seqsAfter
        (fun s => decide (energy s temperature < threshold)) length draws k).length) ∧
    (search_fitness_landscape length fitness threshold draws maxIter
        = .error .searchExhausted ↔
      ¬ ∃ k, k < maxIter ∧ 2 ≤ (seqsAfter
        (fun s => decide (threshold < fitness s)) length draws k).length) :=
  ⟨(search_result_error_iff maxIter _).trans
      (searchLoop_counter_eq_iff (fun s => decide (energy s temperature < threshold))
        length draws maxIter),
    (search_result_error_iff maxIter _).trans
      (searchLoop_counter_eq_iff (fun s => decide (threshold < fitness s))
        length draws maxIter)⟩

/-- Counterexample to C4 as stated: with the oracle that scores every sequence
0 against threshold 1 and draws A then B (Hamming distance 1 = full length),
the qualifying fully-divergent pair is found using exactly the budget of 2
draws (a run with budget 3 returns that pair, completed after 2 draws), yet
the budget-2 run raises the search-exhausted error instead of returning the
found pair, because counter == max_iter is checked after the loop regardless
of success. -/
theorem search_budget_counterexample :
    search_conformation_space 1 (fun _ _ => (0 : ℚ)) 1 1
      (fun k => if k = 0 then ['A'] else ['B']) 3 = .ok [['A'], ['B']] ∧
    search_conformation_space 1 (fun _ _ => (0 : ℚ)) 1 1
      (fun k => if k = 0 then ['A'] else ['B']) 2 = .error .searchExhausted :=
  ⟨rfl, rfl⟩

/-- C5: whenever a landscape search returns normally, it returns exactly two
sequences whose Hamming distance equals the full sequence length, and both
satisfy the score threshold: energy strictly below threshold for the folding
search, fitness strictly above threshold for the fitness search. -/
theorem search_success_properties (length : Nat) (energy : List Char → ℚ → ℚ)
    (fitness : List Char → ℚ) (temperature threshold : ℚ)
    (draws : Nat → List Char) (maxIter : Nat) :
    (∀ ss, search_conformation_space length energy temperature threshold draws maxIter
        = .ok ss →
      ∃ s1 s2, ss = [s1, s2] ∧ hammingDistance s1 s2 = length ∧
        energy s1 temperature < threshold ∧ energy s2 temperature < threshold) ∧
    (∀ ss, search_fitness_landscape length fitness threshold draws maxIter = .ok ss →
      ∃ s1 s2, ss = [s1, s2] ∧ hammingDistance s1 s2 = length ∧
        threshold < fitness s1 ∧ threshold < fitness s2) := by
  constructor
  · intro ss h
    rw [search_conformation_space] at h
    by_cases hc : (searchLoop (fun s => decide (energy s temperature < threshold))
        length draws maxIter maxIter 0 []).1 = maxIter
    · rw [if_pos hc] at h; exact absurd h (by simp)
    · rw [if_neg hc] at h
      obtain ⟨s1, s2, hpair, ha1, ha2, hham⟩ :=
        searchLoop_result_pair _ length draws maxIter hc
      exact ⟨s1, s2, (Except.ok.inj h) ▸ hpair, hham,
        of_decide_eq_true ha1, of_decide_eq_true ha2⟩
  · intro ss h
    rw [search_fitness_landscape] at h
    by_cases hc : (searchLoop (fun s => decide (threshold < fitness s))
        length draws maxIter maxIter 0 []).1 = maxIter
    · rw [if_pos hc] at h; exact absurd h (by simp)
    · rw [if_neg hc] at h
      obtain ⟨s1, s2, hpair, ha1, ha2, hham⟩ :=
        searchLoop_result_pair _ length draws maxIter hc
      exact ⟨s1, s2, (Except.ok.inj h) ▸ hpair, hham,
        of_decide_eq_true ha1, of_decide_eq_true ha2⟩

/-- Witness for C5: a concrete successful run of each search (constant score 0
against threshold 1 for the folding search, constant fitness 1 against
threshold 0 for the fitness search; draws A then B, sequence length 1,
budget 3). -/
theorem search_success_witness :
    (search_conformation_space 1 (fun _ _ => (0 : ℚ)) 1 1
        (fun k => if k = 0 then ['A'] else ['B']) 3 = .ok [['A'], ['B']] ∧
      ∃ s1 s2, ([['A'], ['B']] : List (List Char)) = [s1, s2] ∧
        hammingDistance s1 s2 = 1 ∧
        (fun (_ : List Char) (_ : ℚ) => (0 : ℚ)) s1 1 < 1 ∧
        (fun (_ : List Char) (_ : ℚ) => (0 : ℚ)) s2 1 < 1) ∧
    (search_fitness_landscape 1 (fun _ => (1 : ℚ)) 0
        (fun k => if k = 0 then ['A'] else ['B']) 3 = .ok [['A'], ['B']] ∧
      ∃ s1 s2, ([['A'], ['B']] : List (List Char)) = [s1, s2] ∧
        hammingDistance s1 s2 = 1 ∧
        (0 : ℚ) < (fun (_ : List Char) => (1 : ℚ)) s1 ∧
        (0 : ℚ) < (fun (_ : List Char) => (1 : ℚ)) s2) :=
  ⟨⟨rfl,
      (search_success_properties 1 (fun _ _ => (0 : ℚ)) (fun _ => (1 : ℚ)) 1 1
        (fun k => if k = 0 then ['A'] else ['B']) 3).1 [['A'], ['B']] rfl⟩,
    ⟨rfl,
      (search_success_properties 1 (fun _ _ => (0 : ℚ)) (fun _ => (1 : ℚ)) 0 0
        (fun k => if k = 0 then ['A'] else ['B']) 3).2 [['A'], ['B']] rfl⟩⟩

/-- Interaction-energy tables: opaque dictionaries mapping contact pairs to
energies, passed to the external fold_energy scoring function. -/
abbrev ITable := List (String × ℝ)

/-- Modelled from the spec: miyazawa_jernigan is the external interaction
table constant imported from latticeproteins.interactions.  Its entries are
irrelevant to every claim here, only its identity as a value matters, so it is
modelled as a distinguished empty table. -/
def miyazawa_jernigan : ITable := []

/-- The valid phenotype selectors accepted by the phenotype_type property
setter in gpm.py. -/
def phenotype_types : List String := ["nativeEs", "stabilities", "fracfolded"]

/-- The attributes LatticeGenotypePhenotypeMap.__init__ assigns.  genotypes is
produced by the external gpmap.utils.mutations_to_genotypes helper. -/
structure InitState where
  wildtype : String
  mutations : List (Char × Char)
  interaction_energies : ITable
  temperature : ℝ
  target_conf : Option String
  phenotype_type : String
  genotypes : List String

/-- Embedding of LatticeGenotypePhenotypeMap.__init__: validates the phenotype
selector (through the phenotype_type property setter) and stores the
constructor fields.  Note: the source assigns the module constant
miyazawa_jernigan to self.interaction_energies, not the interaction_energies
argument it received. -/
def latticeInit (mutations_to_genotypes : String → List (Char × Char) → List String)
    (wildtype : String) (mutations : List (Char × Char)) (target_conf : Option String)
    (temperature : ℝ) (phenotype_type : String) (interaction_energies : ITable) :
    Except String InitState :=
  if phenotype_type ∈ phenotype_types then
    .ok { wildtype := wildtype
          mutations := mutations
          interaction_energies := miyazawa_jernigan
          temperature := temperature
          target_conf := target_conf
          phenotype_type := phenotype_type
          genotypes := mutations_to_genotypes wildtype mutations }
  else .error (phenotype_type ++ " is not a valid phenotype type.")

/-- Running state of the conformation loop inside recalculate_partition_sum:
the partition accumulator z, the running minimum conformation and energy, and
the Python local variable folded, which stays unassigned (none) until one of
the two comparison branches runs.  The conf_energies list the source also
appends to is dead local state and is not modelled. -/
structure ScanState where
  z : ℝ
  min_conf : String
  min_energy : ℝ
  folded : Option Bool

/-- One pass of the conformation loop for a fold energy fe: add the Boltzmann
weight exp(-fe / temperature) to z; on a strict new minimum store the energy
and conformation and set folded to true; on a tie with the current minimum set
folded to false. -/
noncomputable def scanStep (temperature fe : ℝ) (conf : String) (st : ScanState) : ScanState :=
  if fe < st.min_energy then
    { z := st.z + Real.exp (-fe / temperature), min_conf := conf,
      min_energy := fe, folded := some true }
  else if fe = st.min_energy then
    { st with z := st.z + Real.exp (-fe / temperature), folded := some false }
  else
    { st with z := st.z + Real.exp (-fe / temperature) }

/-- The conformation loop of recalculate_partition_sum for one genotype,
started from z = 0, min_conf the empty string, min_energy = 0 and folded
unassigned, exactly as in the source. -/
noncomputable def scanConfs (E : String → ℝ) (temperature : ℝ) (conf_list : List String) : ScanState :=
  conf_list.foldl (fun st conf => scanStep temperature (E conf) conf st)
    ⟨0, "", 0, none⟩

/-- One genotype's stored thermodynamic record. -/
structure ThermoRecord where
  nativeE : ℝ
  conf : String
  partition_sum : ℝ
  folded : Bool

/-- The per-genotype body of recalculate_partition_sum when no target
conformation is set: run the conformation loop, then store z, min_energy,
folded and min_conf.  Reading the local variable folded when neither
comparison branch ever ran is Python's UnboundLocalError, a NameError,
modelled as the error case. -/
noncomputable def scoreResult (st : ScanState) : Except String ThermoRecord :=
  match st.folded with
  | none => .error "UnboundLocalError: local variable folded referenced before assignment"
  | some f => .ok ⟨st.min_energy, st.min_conf, st.z, f⟩

noncomputable def scoreGenotype (fold_energy : String → String → ITable → ℝ) (table : ITable)
    (temperature : ℝ) (genotype : String) (conf_list : List String) :
    Except String ThermoRecord :=
  scoreResult (scanConfs (fun conf => fold_energy genotype conf table) temperature conf_list)

/-- Embedding of recalculate_partition_sum with no target conformation set:
genotypes are processed in order and the first genotype whose loop leaves
folded unassigned aborts the whole call. -/
noncomputable def recalculate_partition_sum (fold_energy : String → String → ITable → ℝ)
    (table : ITable) (temperature : ℝ) (genotypes : List String)
    (conf_list : List String) : Except String (List ThermoRecord) :=
  genotypes.mapM (fun g => scoreGenotype fold_energy table temperature g conf_list)

/-- recalculate_partition_sum as the constructed map invokes it: the table the
scoring calls receive is the map's stored interaction_energies attribute. -/
noncomputable def recalc_on_map (fold_energy : String → String → ITable → ℝ) (st : InitState)
    (conf_list : List String) : Except String (List ThermoRecord) :=
  recalculate_partition_sum fold_energy st.interaction_energies st.temperature
    st.genotypes conf_list

/-- The per-map state the persisted format covers: one entry per field that
to_json writes. -/
structure LatticeMap where
  wildtype : String
  genotypes : List String
  nativeEs : List ℝ
  partition_sum : List ℝ
  confs : List String
  folded : List Bool
  phenotype_type : String
  temperature : ℝ
  mutations : List (Char × Char)

/-- The stabilities property of gpm.py: nativeEs plus temperature times the
log of the partition sum minus the native Boltzmann weight, elementwise over
the numpy arrays. -/
noncomputable def LatticeMap.stabilities (m : LatticeMap) : List ℝ :=
  List.zipWith
    (fun nE z => nE + m.temperature * Real.log (z - Real.exp (-nE / m.temperature)))
    m.nativeEs m.partition_sum

/-- The fracfolded property of gpm.py: one over one plus the exponential of
stability over temperature, elementwise over the stabilities array. -/
noncomputable def LatticeMap.fracfolded (m : LatticeMap) : List ℝ :=
  m.stabilities.map (fun s => 1 / (1 + Real.exp (s / m.temperature)))

/-- The dictionary written by to_json and read by from_json.  The json file
itself and Python's json encoder are external; they transport this dictionary
faithfully.  Every field is optional on the reading side because from_json
checks presence. -/
structure JsonData where
  wildtype : Option String
  genotypes : Option (List String)
  nativeEs : Option (List ℝ)
  partition_sum : Option (List ℝ)
  confs : Option (List String)
  folded : Option (List Bool)
  phenotype_type : Option String
  temperature : Option ℝ
  mutations : Option (List (Char × Char))

/-- Embedding of to_json: the written dictionary carries exactly the nine
persisted fields of the map. -/
def to_json (m : LatticeMap) : JsonData :=
  { wildtype := some m.wildtype
    genotypes := some m.genotypes
    nativeEs := some m.nativeEs
    partition_sum := some m.partition_sum
    confs := some m.confs
    folded := some m.folded
    phenotype_type := some m.phenotype_type
    temperature := some m.temperature
    mutations := some m.mutations }

/-- Embedding of from_json: check every necessary argument is present (the
source raises naming the first absent one; which one is absent is not tracked
here), then set the attributes; setting phenotype_type runs its validating
property setter. -/
def from_json (d : JsonData) : Except String LatticeMap :=
  match d with
  | ⟨some wildtype, some genotypes, some nativeEs, some ps, some confs,
      some folded, some phenotype_type, some temperature, some mutations⟩ =>
    if phenotype_type ∈ phenotype_types then
      .ok ⟨wildtype, genotypes, nativeEs, ps, confs, folded,
        phenotype_type, temperature, mutations⟩
    else .error (phenotype_type ++ " is not a valid phenotype type.")
  | _ => .error "argument not in json"

theorem scanStep_lt {temperature fe : ℝ} {conf : String} {st : ScanState}
    (h : fe < st.min_energy) :
    scanStep temperature fe conf st =
      ⟨st.z + Real.exp (-fe / temperature), conf, fe, some true⟩ := by
  rw [scanStep, if_pos h]

theorem scanStep_eq {temperature fe : ℝ} {conf : String} {st : ScanState}
    (h : fe = st.min_energy) :
    scanStep temperature fe conf st =
      { st with z := st.z + Real.exp (-fe / temperature), folded := some false } := by
  rw [scanStep, if_neg (by rw [h]; exact lt_irrefl _), if_pos h]

theorem scanStep_gt {temperature fe : ℝ} {conf : String} {st : ScanState}
    (h : st.min_energy < fe) :
    scanStep temperature fe conf st =
      { st with z := st.z + Real.exp (-fe / temperature) } := by
  rw [scanStep, if_neg (asymm h), if_neg (ne_of_gt h)]

theorem scanStep_min_energy (temperature fe : ℝ) (conf : String) (st : ScanState) :
    (scanStep temperature fe conf st).min_energy = min st.min_energy fe := by
  rcases lt_trichotomy fe st.min_energy with h | h | h
  · rw [scanStep_lt h, min_eq_right (le_of_lt h)]
  · rw [scanStep_eq h, h, min_self]
  · rw [scanStep_gt h, min_eq_left (le_of_lt h)]

theorem scanStep_folded_isSome {temperature fe : ℝ} {conf : String} {st : ScanState}
    {b : Bool} (h : st.folded = some b) :
    ∃ b', (scanStep temperature fe conf st).folded = some b' := by
  rcases lt_trichotomy fe st.min_energy with hc | hc | hc
  · exact ⟨true, by rw [scanStep_lt hc]⟩
  · exact ⟨false, by rw [scanStep_eq hc]⟩
  · exact ⟨b, by rw [scanStep_gt hc]; exact h⟩

theorem scanConfs_snoc (E : String → ℝ) (temperature : ℝ) (conf_list : List String)
    (c : String) :
    scanConfs E temperature (conf_list ++ [c]) =
      scanStep temperature (E c) c (scanConfs E temperature conf_list) := by
  simp [scanConfs, List.foldl_append]

theorem scanConfs_min_energy (E : String → ℝ) (temperature : ℝ) :
    ∀ conf_list : List String,
      (scanConfs E temperature conf_list).min_energy =
        (conf_list.map E).foldl min 0 := by
  have key : ∀ (cs : List String) (st : ScanState),
      (cs.foldl (fun st conf => scanStep temperature (E conf) conf st) st).min_energy =
        (cs.map E).foldl min st.min_energy := by
    intro cs
    induction cs with
    | nil => intro st; rfl
    | cons c cs ih =>
      intro st
      rw [List.foldl_cons, ih, List.map_cons, List.foldl_cons, scanStep_min_energy]
  intro conf_list
  exact key conf_list _

theorem scanConfs_z (E : String → ℝ) (temperature : ℝ) :
    ∀ conf_list : List String,
      (scanConfs E temperature conf_list).z =
        (conf_list.map (fun c => Real.exp (-(E c) / temperature))).sum := by
  have hstep : ∀ fe conf (st : ScanState),
      (scanStep temperature fe conf st).z = st.z + Real.exp (-fe / temperature) := by
    intro fe conf st
    rcases lt_trichotomy fe st.min_energy with h | h | h
    · rw [scanStep_lt h]
    · rw [scanStep_eq h]
    · rw [scanStep_gt h]
  have key : ∀ (cs : List String) (st : ScanState),
      (cs.foldl (fun st conf => scanStep temperature (E conf) conf st) st).z =
        st.z + (cs.map (fun c => Real.exp (-(E c) / temperature))).sum := by
    intro cs
    induction cs with
    | nil => intro st; simp
    | cons c cs ih =>
      intro st
      rw [List.foldl_cons, ih, hstep, List.map_cons, List.sum_cons]
      ring
  intro conf_list
  have h0 := key conf_list ⟨0, "", 0, none⟩
  rw [scanConfs, h0, zero_add]

theorem foldl_min_le_init : ∀ (l : List ℝ) (a : ℝ), l.foldl min a ≤ a := by
  intro l
  induction l with
  | nil => intro a; exact le_refl a
  | cons x l ih =>
    intro a
    exact le_trans (ih (min a x)) (min_le_left a x)

theorem foldl_min_le_mem : ∀ (l : List ℝ) (a : ℝ) {x : ℝ}, x ∈ l → l.foldl min a ≤ x := by
  intro l
  induction l with
  | nil => intro a x hx; simp at hx
  | cons y l ih =>
    intro a x hx
    rcases List.mem_cons.mp hx with rfl | h
    · exact le_trans (foldl_min_le_init l (min a x)) (min_le_right a x)
    · exact ih (min a y) h

theorem le_foldl_min : ∀ (l : List ℝ) {a b : ℝ}, b ≤ a → (∀ x ∈ l, b ≤ x) →
    b ≤ l.foldl min a := by
  intro l
  induction l with
  | nil => intro a b hba _; exact hba
  | cons x l ih =>
    intro a b hba h
    exact ih (le_min hba (h x (List.mem_cons_self x l))) (fun y hy => h y (List.mem_cons_of_mem x hy))

theorem foldl_min_cases : ∀ (l : List ℝ) (a : ℝ),
    l.foldl min a = a ∨ ∃ x ∈ l, l.foldl min a = x := by
  intro l
  induction l with
  | nil => intro a; exact Or.inl rfl
  | cons x l ih =>
    intro a
    rcases ih (min a x) with h | ⟨y, hy, hey⟩
    · rcases min_choice a x with hc | hc
      · exact Or.inl (by rw [List.foldl_cons, h, hc])
      · exact Or.inr ⟨x, List.mem_cons_self x l, by rw [List.foldl_cons, h, hc]⟩
    · exact Or.inr ⟨y, List.mem_cons_of_mem x hy, by rw [List.foldl_cons]; exact hey⟩

theorem foldl_min_eq {l : List ℝ} {a m : ℝ} (hm : m ∈ l) (hle : ∀ x ∈ l, m ≤ x)
    (hma : m ≤ a) : l.foldl min a = m :=
  le_antisymm (foldl_min_le_mem l a hm) (le_foldl_min l hma hle)

theorem scanConfs_pos_state (E : String → ℝ) (temperature : ℝ) :
    ∀ (cs : List String), (∀ c ∈ cs, 0 < E c) → ∀ (z : ℝ),
      cs.foldl (fun st conf => scanStep temperature (E conf) conf st) ⟨z, "", 0, none⟩ =
        ⟨z + (cs.map (fun c => Real.exp (-(E c) / temperature))).sum, "", 0, none⟩ := by
  intro cs
  induction cs with
  | nil => intro _ z; simp
  | cons c cs ih =>
    intro h z
    rw [List.foldl_cons,
      show scanStep temperature (E c) c ⟨z, "", 0, none⟩ =
        (⟨z + Real.exp (-(E c) / temperature), "", 0, none⟩ : ScanState) from
        scanStep_gt (h c (List.mem_cons_self c cs)),
      ih (fun w hw => h w (List.mem_cons_of_mem c hw)), List.map_cons, List.sum_cons]
    rw [add_assoc]

theorem scanConfs_all_pos (E : String → ℝ) (temperature : ℝ) (cs : List String)
    (h : ∀ c ∈ cs, 0 < E c) :
    scanConfs E temperature cs =
      ⟨(cs.map (fun c => Real.exp (-(E c) / temperature))).sum, "", 0, none⟩ := by
  have := scanConfs_pos_state E temperature cs h 0
  rw [scanConfs, this, zero_add]

theorem scanConfs_folded_tie (E : String → ℝ) (temperature : ℝ) :
    ∀ (cs : List String) (i j : Nat) (x y : String), i ≠ j →
      cs[i]? = some x → cs[j]? = some y →
      E x = (cs.map E).foldl min 0 → E y = (cs.map E).foldl min 0 →
      (scanConfs E temperature cs).folded = some false := by
  intro cs
  induction cs using List.reverseRecOn with
  | nil =>
    intro i j x y _ hx _ _ _
    simp at hx
  | append_singleton cs c ih =>
    intro i j x y hij hx hy hxm hym
    have hm' : ((cs ++ [c]).map E).foldl min 0 =
        min ((cs.map E).foldl min 0) (E c) := by
      rw [List.map_append, List.foldl_append]
      rfl
    have hlist : ∀ w ∈ cs, (cs.map E).foldl min 0 ≤ E w := fun w hw =>
      foldl_min_le_mem (cs.map E) 0 (List.mem_map_of_mem E hw)
    have hlen : ∀ (k : Nat) (w : String), (cs ++ [c])[k]? = some w → k < cs.length + 1 := by
      intro k w hk
      by_contra hk2
      rw [List.getElem?_eq_none (by simp; omega)] at hk
      exact Option.noConfusion hk
    rcases lt_trichotomy (E c) ((cs.map E).foldl min 0) with hc | hc | hc
    · exfalso
      have hminr : ((cs ++ [c]).map E).foldl min 0 = E c := by
        rw [hm', min_eq_right (le_of_lt hc)]
      have hbound : ∀ (k : Nat) (w : String), (cs ++ [c])[k]? = some w →
          E w = ((cs ++ [c]).map E).foldl min 0 → k = cs.length := by
        intro k w hk hwm
        by_cases hklt : k < cs.length
        · rw [List.getElem?_append_left hklt] at hk
          obtain ⟨hh, he⟩ := List.getElem?_eq_some.mp hk
          have hwin : w ∈ cs := he ▸ List.getElem_mem hh
          rw [hminr] at hwm
          exact absurd (hwm ▸ hlist w hwin) (not_le.mpr hc)
        · have := hlen k w hk
          omega
      exact hij ((hbound i x hx hxm).trans (hbound j y hy hym).symm)
    · rw [scanConfs_snoc,
        scanStep_eq (by rw [scanConfs_min_energy]; exact hc)]
    · have hminl : ((cs ++ [c]).map E).foldl min 0 = (cs.map E).foldl min 0 := by
        rw [hm', min_eq_left (le_of_lt hc)]
      rw [scanConfs_snoc, scanStep_gt (by rw [scanConfs_min_energy]; exact hc)]
      show (scanConfs E temperature cs).folded = some false
      have hin : ∀ (k : Nat) (w : String), (cs ++ [c])[k]? = some w →
          E w = ((cs ++ [c]).map E).foldl min 0 → k < cs.length := by
        intro k w hk hwm
        have hk1 := hlen k w hk
        by_contra hklt
        have hkeq : k = cs.length := by omega
        subst hkeq
        rw [List.getElem?_concat_length] at hk
        cases Option.some.inj hk
        rw [hminl] at hwm
        exact absurd hwm.symm (ne_of_lt hc)
      have hxi := hin i x hx hxm
      have hyj := hin j y hy hym
      rw [List.getElem?_append_left hxi] at hx
      rw [List.getElem?_append_left hyj] at hy
      rw [hminl] at hxm hym
      exact ih i j x y hij hx hy hxm hym

theorem scanConfs_folded_of_nonpos (E : String → ℝ) (temperature : ℝ) :
    ∀ cs : List String, (∃ c ∈ cs, E c ≤ 0) →
      ∃ b, (scanConfs E temperature cs).folded = some b := by
  intro cs
  induction cs using List.reverseRecOn with
  | nil =>
    intro h
    obtain ⟨c, hc, _⟩ := h
    simp at hc
  | append_singleton cs c ih =>
    intro h
    obtain ⟨w, hw, hwle⟩ := h
    rcases List.mem_append.mp hw with hwin | hwc
    · obtain ⟨b, hb⟩ := ih ⟨w, hwin, hwle⟩
      rw [scanConfs_snoc]
      exact scanStep_folded_isSome hb
    · have hwc' : w = c := by simpa using hwc
      rw [hwc'] at hwle
      rcases lt_trichotomy (E c) ((scanConfs E temperature cs).min_energy)
        with hc2 | hc2 | hc2
      · exact ⟨true, by rw [scanConfs_snoc, scanStep_lt hc2]⟩
      · exact ⟨false, by rw [scanConfs_snoc, scanStep_eq hc2]⟩
      · rw [scanConfs_min_energy] at hc2
        have hmneg : (cs.map E).foldl min 0 < 0 := lt_of_lt_of_le hc2 hwle
        rcases foldl_min_cases (cs.map E) 0 with hz | ⟨v, hv, hev⟩
        · rw [hz] at hmneg
          exact absurd hmneg (lt_irrefl 0)
        · obtain ⟨u, hu, hue⟩ := List.mem_map.mp hv
          have hule : E u ≤ 0 := le_of_lt (by rw [hue, ← hev]; exact hmneg)
          obtain ⟨b, hb⟩ := ih ⟨u, hu, hule⟩
          rw [scanConfs_snoc]
          exact scanStep_folded_isSome hb

theorem scanConfs_min_conf (E : String → ℝ) (temperature : ℝ) :
    ∀ cs : List String, (cs.map E).foldl min 0 < 0 →
      (scanConfs E temperature cs).min_conf ∈ cs ∧
        E (scanConfs E temperature cs).min_conf = (cs.map E).foldl min 0 := by
  intro cs
  induction cs using List.reverseRecOn with
  | nil => intro h; simp at h
  | append_singleton cs c ih =>
    intro h
    have hm' : ((cs ++ [c]).map E).foldl min 0 =
        min ((cs.map E).foldl min 0) (E c) := by
      rw [List.map_append, List.foldl_append]
      rfl
    rcases lt_trichotomy (E c) ((cs.map E).foldl min 0) with hc | hc | hc
    · constructor
      · rw [scanConfs_snoc, scanStep_lt (by rw [scanConfs_min_energy]; exact hc)]
        simp
      · rw [scanConfs_snoc, scanStep_lt (by rw [scanConfs_min_energy]; exact hc),
          hm', min_eq_right (le_of_lt hc)]
    · have hmm : ((cs ++ [c]).map E).foldl min 0 = (cs.map E).foldl min 0 := by
        rw [hm', hc, min_self]
      rw [hmm] at h
      obtain ⟨h1, h2⟩ := ih h
      rw [scanConfs_snoc, scanStep_eq (by rw [scanConfs_min_energy]; exact hc)]
      exact ⟨List.mem_append_left _ h1, by rw [hmm]; exact h2⟩
    · have hmm : ((cs ++ [c]).map E).foldl min 0 = (cs.map E).foldl min 0 := by
        rw [hm', min_eq_left (le_of_lt hc)]
      rw [hmm] at h
      obtain ⟨h1, h2⟩ := ih h
      rw [scanConfs_snoc, scanStep_gt (by rw [scanConfs_min_energy]; exact hc)]
      exact ⟨List.mem_append_left _ h1, by rw [hmm]; exact h2⟩

theorem scoreResult_none {st : ScanState} (hb : st.folded = none) :
    scoreResult st =
      .error "UnboundLocalError: local variable folded referenced before assignment" := by
  cases st with
  | mk z mc me f => cases hb; rfl

theorem scoreResult_some {st : ScanState} {b : Bool} (hb : st.folded = some b) :
    scoreResult st = .ok ⟨st.min_energy, st.min_conf, st.z, b⟩ := by
  cases st with
  | mk z mc me f => cases hb; rfl

theorem scoreGenotype_all_pos (fold_energy : String → String → ITable → ℝ)
    (table : ITable) (temperature : ℝ) (g : String) (conf_list : List String)
    (h : ∀ c ∈ conf_list, 0 < fold_energy g c table) :
    scoreGenotype fold_energy table temperature g conf_list =
      .error "UnboundLocalError: local variable folded referenced before assignment" := by
  rw [scoreGenotype]
  exact scoreResult_none (by
    rw [scanConfs_all_pos (fun conf => fold_energy g conf table) temperature conf_list h])

/-- C10: with no target conformation set, explicit-conformation scoring is not
total: when every fold energy of the first genotype against the supplied
conformation list is strictly positive, neither comparison branch of the loop
ever assigns the local variable folded (the minimum is seeded at 0), so
recalculate_partition_sum reads folded before assignment and aborts with an
uncaught UnboundLocalError, a NameError, instead of producing a thermodynamic
record for that genotype. -/
theorem recalc_unbound_local (fold_energy : String → String → ITable → ℝ)
    (table : ITable) (temperature : ℝ) (g0 : String) (gs : List String)
    (conf_list : List String)
    (h : ∀ c ∈ conf_list, 0 < fold_energy g0 c table) :
    recalculate_partition_sum fold_energy table temperature (g0 :: gs) conf_list =
      .error "UnboundLocalError: local variable folded referenced before assignment" := by
  rw [recalculate_partition_sum, List.mapM_cons,
    scoreGenotype_all_pos fold_energy table temperature g0 conf_list h]
  rfl

/-- Witness for C10: a single genotype scored against one conformation of fold
energy 1 at temperature 1 aborts with the unbound-local error. -/
theorem recalc_unbound_local_witness :
    (∀ c ∈ (["c"] : List String),
      (0 : ℝ) < (fun (_ : String) (_ : String) (_ : ITable) => (1 : ℝ)) "A" c []) ∧
    recalculate_partition_sum (fun _ _ _ => (1 : ℝ)) [] 1 ["A"] ["c"] =
      .error "UnboundLocalError: local variable folded referenced before assignment" :=
  ⟨fun c _ => one_pos,
    recalc_unbound_local (fun _ _ _ => (1 : ℝ)) [] 1 "A" [] ["c"] (fun c _ => one_pos)⟩

/-- Counterexample to C2 as stated: one conformation c with fold energy 0.
The minimum is seeded at 0, so conformation c takes the tie branch and
min_conf keeps its initial empty-string value: the stored record reports
native energy 0 (which is the minimum) but native conformation "", which is
not a conformation from the supplied list. -/
theorem native_conf_counterexample :
    scoreGenotype (fun _ _ _ => (0 : ℝ)) [] 1 "A" ["c"] =
      .ok ⟨0, "", 1, false⟩ ∧
    ("" : String) ∉ (["c"] : List String) := by
  constructor
  · rw [scoreGenotype]
    have hscan : scanConfs (fun conf => (fun (_ : String) (_ : String)
        (_ : ITable) => (0 : ℝ)) "A" conf []) 1 ["c"] =
        ⟨1, "", 0, some false⟩ := by
      show scanStep 1 0 "c" ⟨0, "", 0, none⟩ = _
      rw [@scanStep_eq 1 0 "c" ⟨0, "", 0, none⟩ rfl]
      show (⟨0 + Real.exp (-0 / 1), "", 0, some false⟩ : ScanState) = _
      norm_num [Real.exp_zero]
    rw [hscan]
    rfl
  · simp

/-- C2 (amended): in explicit-conformation scoring with no target conformation
set, for every genotype whose minimum fold energy m over the caller-supplied
conformation list is strictly negative, the stored native energy equals m and
the stored native conformation is a conformation from that list achieving m.
The claim is amended by the strict-negativity bound the seeded minimum forces:
when the minimum is exactly 0 the stored conformation is the initial empty
string, not a list member (see the counterexample), and when every energy is
positive no record is produced at all (claim C10). -/
theorem native_state_min (fold_energy : String → String → ITable → ℝ)
    (table : ITable) (temperature : ℝ) (g : String) (conf_list : List String)
    (m : ℝ)
    (hmem : ∃ c ∈ conf_list, fold_energy g c table = m)
    (hle : ∀ c ∈ conf_list, m ≤ fold_energy g c table)
    (hneg : m < 0) :
    ∃ r, scoreGenotype fold_energy table temperature g conf_list = .ok r ∧
      r.nativeE = m ∧ r.conf ∈ conf_list ∧ fold_energy g r.conf table = m := by
  have hmE : ((conf_list.map (fun conf => fold_energy g conf table)).foldl min 0) = m := by
    obtain ⟨c, hc, hcm⟩ := hmem
    refine foldl_min_eq (List.mem_map.mpr ⟨c, hc, hcm⟩) ?_ (le_of_lt hneg)
    intro x hx
    obtain ⟨u, hu, rfl⟩ := List.mem_map.mp hx
    exact hle u hu
  obtain ⟨b, hb⟩ := scanConfs_folded_of_nonpos
    (fun conf => fold_energy g conf table) temperature conf_list
    (by
      obtain ⟨c, hc, hcm⟩ := hmem
      exact ⟨c, hc, le_of_lt (by show fold_energy g c table < 0; rw [hcm]; exact hneg)⟩)
  have hconf := scanConfs_min_conf (fun conf => fold_energy g conf table)
    temperature conf_list (by rw [hmE]; exact hneg)
  refine ⟨⟨(scanConfs (fun conf => fold_energy g conf table) temperature
      conf_list).min_energy,
    (scanConfs (fun conf => fold_energy g conf table) temperature
      conf_list).min_conf,
    (scanConfs (fun conf => fold_energy g conf table) temperature
      conf_list).z, b⟩, ?_, ?_, hconf.1, ?_⟩
  · rw [scoreGenotype]
    exact scoreResult_some hb
  · show (scanConfs (fun conf => fold_energy g conf table) temperature
      conf_list).min_energy = m
    rw [scanConfs_min_energy]
    exact hmE
  · exact hconf.2.trans hmE

/-- Witness for C2 at a concrete input: one conformation of fold energy -1. -/
theorem native_state_min_witness :
    (∃ c ∈ (["c"] : List String),
      (fun (_ : String) (_ : String) (_ : ITable) => (-1 : ℝ)) "A" c [] = -1) ∧
    (∀ c ∈ (["c"] : List String),
      (-1 : ℝ) ≤ (fun (_ : String) (_ : String) (_ : ITable) => (-1 : ℝ)) "A" c []) ∧
    (-1 : ℝ) < 0 ∧
    (∃ r, scoreGenotype (fun _ _ _ => (-1 : ℝ)) [] 1 "A" ["c"] = .ok r ∧
      r.nativeE = -1 ∧ r.conf ∈ (["c"] : List String) ∧
      (fun (_ : String) (_ : String) (_ : ITable) => (-1 : ℝ)) "A" r.conf [] = -1) :=
  ⟨⟨"c", by simp, rfl⟩, fun c _ => le_refl _, neg_one_lt_zero,
    native_state_min (fun _ _ _ => (-1 : ℝ)) [] 1 "A" ["c"] (-1)
      ⟨"c", by simp, rfl⟩ (fun c _ => le_refl _) neg_one_lt_zero⟩

/-- C3 (amended): in explicit-conformation scoring with no target conformation
set, for every genotype whose minimum fold energy m over the supplied list is
nonpositive (so that the computation completes at all; see the
counterexample), the stored partition sum equals the sum of
exp(-energy / temperature) over all conformations in the list, the minimum
energy m is recorded as the native energy, and whenever two or more list
positions share the minimum energy the genotype is marked not folded.  In
particular a genotype scored at temperature 1 against two conformations both
of energy -2 gets partition sum exp 2 + exp 2, native energy -2 and folded
false (see the witness). -/
theorem partition_sum_and_tie (fold_energy : String → String → ITable → ℝ)
    (table : ITable) (temperature : ℝ) (g : String) (conf_list : List String)
    (m : ℝ)
    (hmem : ∃ c ∈ conf_list, fold_energy g c table = m)
    (hle : ∀ c ∈ conf_list, m ≤ fold_energy g c table)
    (h0 : m ≤ 0) :
    ∃ r, scoreGenotype fold_energy table temperature g conf_list = .ok r ∧
      r.partition_sum = (conf_list.map (fun c =>
        Real.exp (-(fold_energy g c table) / temperature))).sum ∧
      r.nativeE = m ∧
      (∀ (i j : Nat) (x y : String), i ≠ j →
        conf_list[i]? = some x → conf_list[j]? = some y →
        fold_energy g x table = m → fold_energy g y table = m →
        r.folded = false) := by
  have hmE : ((conf_list.map (fun conf => fold_energy g conf table)).foldl min 0) = m := by
    obtain ⟨c, hc, hcm⟩ := hmem
    refine foldl_min_eq (List.mem_map.mpr ⟨c, hc, hcm⟩) ?_ h0
    intro x hx
    obtain ⟨u, hu, rfl⟩ := List.mem_map.mp hx
    exact hle u hu
  obtain ⟨b, hb⟩ := scanConfs_folded_of_nonpos
    (fun conf => fold_energy g conf table) temperature conf_list
    (by
      obtain ⟨c, hc, hcm⟩ := hmem
      exact ⟨c, hc, by show fold_energy g c table ≤ 0; rw [hcm]; exact h0⟩)
  refine ⟨⟨(scanConfs (fun conf => fold_energy g conf table) temperature
      conf_list).min_energy,
    (scanConfs (fun conf => fold_energy g conf table) temperature
      conf_list).min_conf,
    (scanConfs (fun conf => fold_energy g conf table) temperature
      conf_list).z, b⟩, ?_, ?_, ?_, ?_⟩
  · rw [scoreGenotype]
    exact scoreResult_some hb
  · exact scanConfs_z (fun conf => fold_energy g conf table) temperature conf_list
  · show (scanConfs (fun conf => fold_energy g conf table) temperature
      conf_list).min_energy = m
    rw [scanConfs_min_energy]
    exact hmE
  · intro i j x y hij hx hy hxm hym
    have hfalse := scanConfs_folded_tie (fun conf => fold_energy g conf table)
      temperature conf_list i j x y hij hx hy
      (hxm.trans hmE.symm) (hym.trans hmE.symm)
    exact Option.some.inj (hb.symm.trans hfalse)

/-- Counterexample to C3 as stated: two conformations that share the minimum
fold energy of the list, both with energy 1.  The claim asserts the genotype
is marked not folded with the minimum recorded, but because the running
minimum is seeded at 0 and both energies are positive, neither comparison
branch runs the scoring aborts with the unbound-local error and no record at
all is produced. -/
theorem partition_tie_counterexample :
    ((fun (_ : String) (_ : String) (_ : ITable) => (1 : ℝ)) "A" "c1" [] =
      (fun (_ : String) (_ : String) (_ : ITable) => (1 : ℝ)) "A" "c2" []) ∧
    scoreGenotype (fun _ _ _ => (1 : ℝ)) [] 1 "A" ["c1", "c2"] =
      .error "UnboundLocalError: local variable folded referenced before assignment" :=
  ⟨rfl, scoreGenotype_all_pos (fun _ _ _ => (1 : ℝ)) [] 1 "A" ["c1", "c2"]
    (fun c _ => one_pos)⟩

/-- Witness for C3, which is also the spec's concrete example: two
conformations both of fold energy -2 at temperature 1 give partition sum
exp 2 + exp 2, native energy -2, and folded false. -/
theorem partition_sum_and_tie_witness :
    ∃ r, scoreGenotype (fun _ _ _ => (-2 : ℝ)) [] 1 "A" ["c1", "c2"] = .ok r ∧
      r.partition_sum = Real.exp 2 + Real.exp 2 ∧ r.nativeE = -2 ∧
      r.folded = false := by
  obtain ⟨r, hok, hz, hn, htie⟩ :=
    partition_sum_and_tie (fun _ _ _ => (-2 : ℝ)) [] 1 "A" ["c1", "c2"] (-2)
      ⟨"c1", by simp, rfl⟩ (fun c _ => le_refl _) (neg_nonpos.mpr zero_le_two)
  refine ⟨r, hok, ?_, hn, htie 0 1 "c1" "c2" (by simp) rfl rfl rfl rfl⟩
  rw [hz]
  simp

/-- C6: exporting a fully scored map with to_json and re-loading the result
with from_json yields a map with identical genotype order, native energies,
partition sums, native conformations, and folded flags (equal on the nose in
this real-number model, which subsumes the numerically tolerant float
comparison).  A fully scored map carries a valid phenotype selector, which
from_json revalidates through the phenotype_type property setter. -/
theorem json_round_trip (m : LatticeMap)
    (h : m.phenotype_type ∈ phenotype_types) :
    ∃ m', from_json (to_json m) = .ok m' ∧
      m'.genotypes = m.genotypes ∧ m'.nativeEs = m.nativeEs ∧
      m'.partition_sum = m.partition_sum ∧ m'.confs = m.confs ∧
      m'.folded = m.folded := by
  refine ⟨m, ?_, rfl, rfl, rfl, rfl, rfl⟩
  show (if m.phenotype_type ∈ phenotype_types then
      Except.ok (⟨m.wildtype, m.genotypes, m.nativeEs, m.partition_sum, m.confs,
        m.folded, m.phenotype_type, m.temperature, m.mutations⟩ : LatticeMap)
    else Except.error (m.phenotype_type ++ " is not a valid phenotype type.")) =
    Except.ok m
  rw [if_pos h]

/-- Witness for C6 at a concrete one-genotype map. -/
theorem json_round_trip_witness :
    (LatticeMap.mk "AB" ["AB"] [-2] [1] ["c"] [true] "stabilities" 1
        []).phenotype_type ∈ phenotype_types ∧
    (∃ m', from_json (to_json (LatticeMap.mk "AB" ["AB"] [-2] [1] ["c"] [true]
        "stabilities" 1 [])) = .ok m' ∧
      m'.genotypes = ["AB"] ∧ m'.nativeEs = [-2] ∧ m'.partition_sum = [1] ∧
      m'.confs = ["c"] ∧ m'.folded = [true]) :=
  ⟨by decide,
    json_round_trip (LatticeMap.mk "AB" ["AB"] [-2] [1] ["c"] [true]
      "stabilities" 1 []) (by decide)⟩

/-- C7: for every scored genotype whose partition sum strictly exceeds
exp(-native_energy / temperature), the derived stability at its index equals
native_energy + temperature * ln(partition_sum - exp(-native_energy /
temperature)), and the derived fraction folded equals
1 / (1 + exp(stability / temperature)) computed from that same stability
value. -/
theorem stability_formulas (m : LatticeMap) (i : Nat) (nE z : ℝ)
    (hn : m.nativeEs[i]? = some nE) (hz : m.partition_sum[i]? = some z)
    (hdom : Real.exp (-nE / m.temperature) < z) :
    m.stabilities[i]? =
      some (nE + m.temperature * Real.log (z - Real.exp (-nE / m.temperature))) ∧
    ∀ s, m.stabilities[i]? = some s →
      m.fracfolded[i]? = some (1 / (1 + Real.exp (s / m.temperature))) := by
  constructor
  · rw [LatticeMap.stabilities, List.getElem?_zipWith, hn, hz]
  · intro s hs
    rw [LatticeMap.fracfolded, List.getElem?_map, hs, Option.map_some']

/-- Witness for C7 at a concrete map: native energy 0, partition sum 2,
temperature 1, so that exp(-0/1) = 1 < 2. -/
theorem stability_formulas_witness :
    (LatticeMap.mk "A" ["A"] [0] [2] ["c"] [true] "stabilities" 1
        []).nativeEs[0]? = some 0 ∧
    (LatticeMap.mk "A" ["A"] [0] [2] ["c"] [true] "stabilities" 1
        []).partition_sum[0]? = some 2 ∧
    Real.exp (-(0 : ℝ) / (LatticeMap.mk "A" ["A"] [0] [2] ["c"] [true]
        "stabilities" 1 []).temperature) < 2 ∧
    ((LatticeMap.mk "A" ["A"] [0] [2] ["c"] [true] "stabilities" 1
        []).stabilities[0]? =
      some (0 + 1 * Real.log (2 - Real.exp (-(0 : ℝ) / 1))) ∧
    ∀ s, (LatticeMap.mk "A" ["A"] [0] [2] ["c"] [true] "stabilities" 1
        []).stabilities[0]? = some s →
      (LatticeMap.mk "A" ["A"] [0] [2] ["c"] [true] "stabilities" 1
        []).fracfolded[0]? = some (1 / (1 + Real.exp (s / 1)))) :=
  ⟨rfl, rfl, by simp [Real.exp_zero],
    stability_formulas (LatticeMap.mk "A" ["A"] [0] [2] ["c"] [true]
      "stabilities" 1 []) 0 0 2 rfl rfl
      (by simp [Real.exp_zero])⟩

/-- C8 is a code bug: the constructor signature accepts a caller-supplied
interaction-energy table, and the class documentation describes
interaction_energies as the table mapping contact pairs to energies, but the
body assigns the module constant miyazawa_jernigan instead of the argument.
Every later fold_energy call made by recalculate_partition_sum therefore
scores with miyazawa_jernigan, not the caller's table: here the map is built
with a one-entry table and ends up holding the (distinct) constant, and the
scoring pass invoked on the map is the one over miyazawa_jernigan. -/
theorem interaction_table_ignored :
    (∃ st, latticeInit (fun _ _ => []) "AB" [] none 1 "stabilities"
        [("AA", (1 : ℝ))] = .ok st ∧
      st.interaction_energies = miyazawa_jernigan ∧
      st.interaction_energies ≠ [("AA", (1 : ℝ))] ∧
      ∀ (fold_energy : String → String → ITable → ℝ) (conf_list : List String),
        recalc_on_map fold_energy st conf_list =
          recalculate_partition_sum fold_energy miyazawa_jernigan 1 [] conf_list) :=
  ⟨⟨"AB", [], miyazawa_jernigan, 1, none, "stabilities", []⟩,
    by rw [latticeInit, if_pos (by decide)], rfl,
    fun h => List.noConfusion
      (show ([] : List (String × ℝ)) = [("AA", (1 : ℝ))] from h),
    fun _ _ => rfl⟩
